import Mathlib

/-!
Verification of the lightning payment route builder
(`src/submissions/rust/src/main.rs`).

The Rust core is embedded shallowly:
* `u32` / `u64` values become `Nat`; every arithmetic operation that can
  overflow in the source is followed by an explicit `% U32` / `% U64`
  (Rust release-profile semantics: overflow wraps; there is no checked
  arithmetic anywhere in the source).
* The out-of-bounds vector index `paths[row.path_id as usize]` panics in
  Rust; the grouping step is therefore embedded as an `Option`, `none`
  modelling the panic.
* Strings stay `String`; byte vectors become `List Nat` (each byte < 256,
  expressed as a hypothesis where a claim needs it).
-/

namespace RouteBuilder

/-- The modulus `2 ^ 64` of Rust `u64` wrapping arithmetic. -/
def U64 : Nat := 18446744073709551616

/-- The modulus `2 ^ 32` of Rust `u32` wrapping arithmetic. -/
def U32 : Nat := 4294967296

/-- Embedding of Rust `struct InputRow` (main.rs lines 10-17).
`path_id`, `cltv_delta` are `u32`; `base_fee_msat`, `proportional_fee_ppm`
are `u64`; all are represented as `Nat`. -/
structure InputRow where
  path_id : Nat
  channel_name : String
  cltv_delta : Nat
  base_fee_msat : Nat
  proportional_fee_ppm : Nat
deriving DecidableEq

/-- Embedding of Rust `struct OutputRow` (main.rs lines 20-27). -/
structure OutputRow where
  path_id : Nat
  channel_name : String
  htlc_amount_msat : Nat
  htlc_expiry : Nat
  tlv : String
deriving DecidableEq

/-- Default `InputRow`, used only as the `List.getD` fallback. -/
def dIn : InputRow := ⟨0, "", 0, 0, 0⟩

/-- Default `OutputRow`, used only as the `List.getD` fallback. -/
def dOut : OutputRow := ⟨0, "", 0, 0, ""⟩

/-- Embedding of `fn count_paths` (main.rs lines 46-54): a fold computing
the maximum `path_id` (starting from `0`), plus one.  The `+ 1` is a `u32`
addition, hence the `% U32` (it wraps when the maximum is `u32::MAX`). -/
def count_paths (rows : List InputRow) : Nat :=
  ((rows.foldl
      (fun max_path_id row =>
        if row.path_id > max_path_id then row.path_id else max_path_id)
      0) + 1) % U32

/-- Big-endian bytes of a `u64`, embedding Rust `u64::to_be_bytes`
(for `n < U64` these are the eight base-256 digits, most significant
first). -/
def u64_to_be_bytes (n : Nat) : List Nat :=
  [n / 72057594037927936 % 256, n / 281474976710656 % 256,
   n / 1099511627776 % 256, n / 4294967296 % 256,
   n / 16777216 % 256, n / 65536 % 256, n / 256 % 256, n % 256]

/-- One hexadecimal digit character, lowercase (`0`-`9`, `a`-`f`),
for `n < 16`: the character code is `48 + n` for `n < 10` and
`87 + n` (that is, `'a' + (n - 10)`) otherwise. -/
def hexDigit (n : Nat) : Char :=
  if n < 10 then Char.ofNat (48 + n) else Char.ofNat (87 + n)

/-- The two characters of `format!("\x7b:02x\x7d", b)` for a byte `b < 256`. -/
def byteToHexChars (b : Nat) : List Char :=
  [hexDigit (b / 16 % 16), hexDigit (b % 16)]

/-- Embedding of `format!("\x7b:02x\x7d", b)` for a byte `b < 256`. -/
def byteToHex (b : Nat) : String :=
  String.mk (byteToHexChars b)

/-- Embedding of `fn build_tlv` (main.rs lines 60-84): concatenate the
big-endian encodings of the constants `8` (type) and `40` (length), the
payment secret verbatim, and the big-endian total amount, then render
every byte as two lowercase hex characters and collect into one string. -/
def build_tlv (payment_secret : List Nat) (total_msat : Nat) : String :=
  let type_bytes := u64_to_be_bytes 8
  let length_bytes := u64_to_be_bytes 40
  let total_msat_bytes := u64_to_be_bytes total_msat
  let tlv_bytes := type_bytes ++ length_bytes ++ payment_secret ++ total_msat_bytes
  String.join (tlv_bytes.map byteToHex)

/-- Embedding of the grouping loop of `calculate_route`
(main.rs lines 106-109): `paths[row.path_id as usize].push(row)` for each
row in order.  Rust panics when `row.path_id` is out of bounds (the vector
has `num_paths` buckets); that panic is modelled as `none`.  `List.set`
keeps the bucket count constant, so the bound check against
`paths.length` is the bound check against the original bucket count. -/
def group_rows : List InputRow → List (List InputRow) → Option (List (List InputRow))
  | [], paths => some paths
  | row :: rest, paths =>
    if row.path_id < paths.length then
      group_rows rest (paths.set row.path_id (paths.getD row.path_id [] ++ [row]))
    else
      none

/-- The amount accumulator update of main.rs lines 145-146:
`fee = hop.base_fee_msat + (htlc_amount * hop.proportional_fee_ppm) / 1_000_000`
followed by `htlc_amount += fee`; the `u64` multiplication and the two
`u64` additions wrap, hence the explicit `% U64`. -/
def feeStep (hop : InputRow) (htlc_amount : Nat) : Nat :=
  let fee := (hop.base_fee_msat + (htlc_amount * hop.proportional_fee_ppm) % U64 / 1000000) % U64
  (htlc_amount + fee) % U64

/-- The expiry accumulator update of main.rs line 149:
`htlc_expiry += hop.cltv_delta`, a wrapping `u32` addition. -/
def expStep (hop : InputRow) (htlc_expiry : Nat) : Nat :=
  (htlc_expiry + hop.cltv_delta) % U32

/-- Embedding of the per-path reverse loop of `calculate_route`
(main.rs lines 123-151).  The hop list argument is the path already
reversed (`for i in (0..path.len()).rev()` visits the recipient-side hop
first); `is_last` is `i == path.len() - 1`, true exactly on the first
iteration; the `match rest` mirrors the `if i > 0` guard around the
accumulator update. -/
def prop_rev (payment_secret : List Nat) (total_amount_msat num_paths path_id : Nat) :
    List InputRow → Nat → Nat → Bool → List OutputRow
  | [], _, _, _ => []
  | hop :: rest, htlc_amount, htlc_expiry, is_last =>
    let tlv : String :=
      if is_last ∧ num_paths > 1 then build_tlv payment_secret total_amount_msat
      else "NULL"
    let out : OutputRow := ⟨path_id, hop.channel_name, htlc_amount, htlc_expiry, tlv⟩
    match rest with
    | [] => [out]
    | _ :: _ =>
      out :: prop_rev payment_secret total_amount_msat num_paths path_id rest
        (feeStep hop htlc_amount) (expStep hop htlc_expiry) false

/-- One non-empty path's processing (main.rs lines 117-154): run the
reverse loop over the reversed path, then `output_path.reverse()`. -/
def process_path (payment_secret : List Nat) (total_amount_msat per_path_amount
    init_expiry num_paths path_id : Nat) (path : List InputRow) : List OutputRow :=
  (prop_rev payment_secret total_amount_msat num_paths path_id
    path.reverse per_path_amount init_expiry true).reverse

/-- Lexicographic order on character sequences by code point.  Rust
compares `String`s by UTF-8 bytes; UTF-8 byte order coincides with code
point order, so this is exactly Rust's `String` ordering. -/
def charsLE : List Char → List Char → Bool
  | [], _ => true
  | _ :: _, [] => false
  | c1 :: t1, c2 :: t2 =>
    if c1.toNat < c2.toNat then true
    else if c2.toNat < c1.toNat then false
    else charsLE t1 t2

/-- Rust's `String` ordering (lexicographic by UTF-8 bytes). -/
def strLE (s1 s2 : String) : Bool :=
  charsLE s1.data s2.data

/-- The sort key order of main.rs line 159:
`sort_by_key(|row| (row.path_id, row.channel_name.clone()))`.  Rust tuple
order: first by `path_id`, ties broken by `channel_name`. -/
def rowLE (r1 r2 : OutputRow) : Bool :=
  decide (r1.path_id < r2.path_id) ||
    (decide (r1.path_id = r2.path_id) && strLE r1.channel_name r2.channel_name)

/-- Insert a row behind every already-placed row that compares `rowLE` to
it (ties keep the earlier row first). -/
def insertRow (x : OutputRow) : List OutputRow → List OutputRow
  | [] => [x]
  | y :: ys => if rowLE x y then x :: y :: ys else y :: insertRow x ys

/-- Embedding of the stable sort of main.rs line 159
(`Vec::sort_by_key` is a stable sort; a stable sort's output is uniquely
determined by the key order and the input order, so the stable insertion
sort below computes the same function). -/
def sortRows : List OutputRow → List OutputRow
  | [] => []
  | x :: xs => insertRow x (sortRows xs)

/-- Embedding of `fn calculate_route` (main.rs lines 87-161): compute the
per-path amount, group the rows into `num_paths` buckets (`none` models
the index-out-of-bounds panic), process each non-empty bucket backwards,
and sort the concatenated output by `(path_id, channel_name)`. -/
def calculate_route (rows : List InputRow) (amount_msat min_final_cltv_expiry
    current_block_height : Nat) (payment_secret : List Nat) (num_paths : Nat) :
    Option (List OutputRow) :=
  let total_amount_msat := amount_msat
  let per_path_amount := if num_paths > 1 then amount_msat / num_paths else amount_msat
  match group_rows rows (List.replicate num_paths []) with
  | none => none
  | some paths =>
    let init_expiry := (current_block_height + min_final_cltv_expiry) % U32
    let output_rows :=
      (paths.enum.map (fun p =>
        if p.2.isEmpty then []
        else process_path payment_secret total_amount_msat per_path_amount
          init_expiry num_paths p.1 p.2)).flatten
    some (sortRows output_rows)

/-! ## Specification-side definitions

These are written from the spec's wording, independently of the source
embedding above, and are used to state the claims. -/

/-- Specification-side fold: the value of the amount accumulator after
consuming the given (recipient-to-sender ordered) hops, starting from
`a`. -/
def amtFold : List InputRow → Nat → Nat
  | [], a => a
  | hop :: rest, a => amtFold rest (feeStep hop a)

/-- Specification-side fold: the value of the expiry accumulator after
consuming the given hops, starting from `e`. -/
def expFold : List InputRow → Nat → Nat
  | [], e => e
  | hop :: rest, e => expFold rest (expStep hop e)

/-- Value of one lowercase hexadecimal digit character, `none` when the
character is not one. -/
def hexCharVal (c : Char) : Option Nat :=
  if '0' ≤ c ∧ c ≤ '9' then some (c.toNat - 48)
  else if 'a' ≤ c ∧ c ≤ 'f' then some (c.toNat - 87)
  else none

/-- Decode a hexadecimal character sequence into bytes, two characters
per byte; fails on an odd-length sequence or a non-hex character. -/
def decodeHexChars : List Char → Option (List Nat)
  | [] => some []
  | [_] => none
  | c1 :: c2 :: rest =>
    match hexCharVal c1, hexCharVal c2, decodeHexChars rest with
    | some hi, some lo, some bs => some ((16 * hi + lo) :: bs)
    | _, _, _ => none

/-- Decode a hexadecimal string into bytes. -/
def decodeHex (str : String) : Option (List Nat) :=
  decodeHexChars str.data

/-- Big-endian integer value of a byte sequence. -/
def beVal (bytes : List Nat) : Nat :=
  bytes.foldl (fun acc b => acc * 256 + b) 0

/-- The character is a lowercase hexadecimal digit. -/
def isLowerHexChar (c : Char) : Prop :=
  ('0' ≤ c ∧ c ≤ '9') ∨ ('a' ≤ c ∧ c ≤ 'f')

instance (c : Char) : Decidable (isLowerHexChar c) := by
  unfold isLowerHexChar
  infer_instance

/-! ## Characterization of the backward propagation loop -/

theorem amtFold_append (xs ys : List InputRow) (a : Nat) :
    amtFold (xs ++ ys) a = amtFold ys (amtFold xs a) := by
  induction xs generalizing a with
  | nil => rfl
  | cons hop rest ih => simpa [amtFold] using ih (feeStep hop a)

theorem expFold_append (xs ys : List InputRow) (e : Nat) :
    expFold (xs ++ ys) e = expFold ys (expFold xs e) := by
  induction xs generalizing e with
  | nil => rfl
  | cons hop rest ih => simpa [expFold] using ih (expStep hop e)

theorem prop_rev_length (s : List Nat) (t np pid : Nat) :
    ∀ (hops : List InputRow) (a e : Nat) (fl : Bool),
      (prop_rev s t np pid hops a e fl).length = hops.length := by
  intro hops
  induction hops with
  | nil => intro a e fl; rfl
  | cons hop rest ih =>
    intro a e fl
    cases rest with
    | nil => rfl
    | cons h2 t2 =>
      simpa [prop_rev] using ih (feeStep hop a) (expStep hop e) false

/-- Element `j` of the reverse-order output list: its amount and expiry
are the accumulator folds over the first `j` (recipient-side) hops, its
channel is hop `j`'s, and it carries the auxiliary record exactly when it
is the first element, the `is_last` flag is set and `num_paths > 1`. -/
theorem prop_rev_getD (s : List Nat) (t np pid : Nat) :
    ∀ (hops : List InputRow) (a e : Nat) (fl : Bool) (j : Nat), j < hops.length →
      (prop_rev s t np pid hops a e fl).getD j dOut =
        ⟨pid, (hops.getD j dIn).channel_name, amtFold (hops.take j) a,
          expFold (hops.take j) e,
          if j = 0 ∧ fl = true ∧ np > 1 then build_tlv s t else "NULL"⟩ := by
  intro hops
  induction hops with
  | nil => intro a e fl j hj; simp at hj
  | cons hop rest ih =>
    intro a e fl j hj
    cases rest with
    | nil =>
      have hj0 : j = 0 := by
        simp only [List.length_cons, List.length_nil] at hj; omega
      subst hj0
      simp [prop_rev, amtFold, expFold]
    | cons h2 t2 =>
      cases j with
      | zero => simp [prop_rev, amtFold, expFold]
      | succ j' =>
        have hlt : j' < (h2 :: t2).length := by
          simp only [List.length_cons] at hj ⊢; omega
        have hrec := ih (feeStep hop a) (expStep hop e) false j' hlt
        simpa [prop_rev, amtFold, expFold, List.getD_cons_succ,
          List.take_succ_cons] using hrec

theorem getD_reverse {α : Type} (l : List α) (d : α) (i : Nat) (h : i < l.length) :
    l.reverse.getD i d = l.getD (l.length - 1 - i) d := by
  rw [List.getD_eq_getElem _ _ (by simpa using h),
      List.getD_eq_getElem _ _ (by omega)]
  exact List.getElem_reverse (by simpa using h)

theorem process_path_length (s : List Nat) (t a e np pid : Nat) (path : List InputRow) :
    (process_path s t a e np pid path).length = path.length := by
  simp [process_path, prop_rev_length]

/-- Element `i` (sender-to-recipient order) of a processed path: amount
and expiry are the folds over the `path.length - 1 - i` recipient-side
hops, and the auxiliary record sits exactly on the last element when
`num_paths > 1`. -/
theorem process_path_getD (s : List Nat) (t a e np pid : Nat) (path : List InputRow)
    (i : Nat) (hi : i < path.length) :
    (process_path s t a e np pid path).getD i dOut =
      ⟨pid, (path.getD i dIn).channel_name,
        amtFold (path.reverse.take (path.length - 1 - i)) a,
        expFold (path.reverse.take (path.length - 1 - i)) e,
        if i = path.length - 1 ∧ np > 1 then build_tlv s t else "NULL"⟩ := by
  unfold process_path
  have hlen : (prop_rev s t np pid path.reverse a e true).length = path.length := by
    rw [prop_rev_length]; exact List.length_reverse path
  rw [getD_reverse _ dOut i (by rw [hlen]; exact hi), hlen,
    prop_rev_getD s t np pid path.reverse a e true (path.length - 1 - i)
      (by rw [List.length_reverse]; omega)]
  rw [getD_reverse path dIn (path.length - 1 - i) (by omega)]
  have hidx : path.length - 1 - (path.length - 1 - i) = i := by omega
  rw [hidx]
  have hcond : (path.length - 1 - i = 0 ∧ true = true ∧ np > 1) ↔
      (i = path.length - 1 ∧ np > 1) := by
    constructor
    · rintro ⟨h1, _, h3⟩; exact ⟨by omega, h3⟩
    · rintro ⟨h1, h3⟩; exact ⟨by omega, rfl, h3⟩
  rw [if_congr hcond rfl rfl]

/-- Adjacent elements of a processed path are related by the source's
accumulator updates: the sender-side neighbour's amount and expiry are
`feeStep` / `expStep` of hop `i`'s parameters applied to element `i`'s
values. -/
theorem process_path_step (s : List Nat) (t a e np pid : Nat) (path : List InputRow)
    (i : Nat) (h0 : 0 < i) (hi : i < path.length) :
    ((process_path s t a e np pid path).getD (i - 1) dOut).htlc_amount_msat =
      feeStep (path.getD i dIn)
        (((process_path s t a e np pid path).getD i dOut).htlc_amount_msat) ∧
    ((process_path s t a e np pid path).getD (i - 1) dOut).htlc_expiry =
      expStep (path.getD i dIn)
        (((process_path s t a e np pid path).getD i dOut).htlc_expiry) := by
  rw [process_path_getD s t a e np pid path i hi,
      process_path_getD s t a e np pid path (i - 1) (by omega)]
  have hidx : path.length - 1 - (i - 1) = (path.length - 1 - i) + 1 := by omega
  have hlt : path.length - 1 - i < path.reverse.length := by
    rw [List.length_reverse]; omega
  have hrevi : path.reverse[path.length - 1 - i]? = some (path.getD i dIn) := by
    rw [List.getElem?_eq_getElem hlt, List.getElem_reverse,
      List.getD_eq_getElem path dIn hi]
    have heq : path.length - 1 - (path.length - 1 - i) = i := by omega
    simp only [heq]
  have htake : path.reverse.take (path.length - 1 - (i - 1)) =
      path.reverse.take (path.length - 1 - i) ++ [path.getD i dIn] := by
    rw [hidx, List.take_succ, hrevi]
    rfl
  rw [htake, amtFold_append, expFold_append]
  exact ⟨rfl, rfl⟩

/-- When neither `u64` operation overflows, the wrapping amount update is
the exact arithmetic update. -/
theorem feeStep_eq_of_lt (hop : InputRow) (a : Nat)
    (h1 : a * hop.proportional_fee_ppm < U64)
    (h2 : a + hop.base_fee_msat + a * hop.proportional_fee_ppm / 1000000 < U64) :
    feeStep hop a = a + hop.base_fee_msat + a * hop.proportional_fee_ppm / 1000000 := by
  simp only [feeStep]
  rw [Nat.mod_eq_of_lt h1,
    Nat.mod_eq_of_lt
      (show hop.base_fee_msat + a * hop.proportional_fee_ppm / 1000000 < U64 by omega)]
  rw [Nat.mod_eq_of_lt (by omega)]
  omega

/-- When the `u32` addition does not overflow, the wrapping expiry update
is the exact arithmetic update. -/
theorem expStep_eq_of_lt (hop : InputRow) (e : Nat)
    (h : e + hop.cltv_delta < U32) :
    expStep hop e = e + hop.cltv_delta := by
  simp only [expStep]
  exact Nat.mod_eq_of_lt h

/-- The spec's §8 single-path example shape: hops A, B, C with C adjacent
to the recipient; used as the concrete input of several witnesses. -/
def examplePath : List InputRow :=
  [⟨0, "ca", 40, 1000, 1000⟩, ⟨0, "cb", 40, 1000, 1000⟩, ⟨0, "cc", 9, 0, 0⟩]

/-- C1.  Backward propagation recurrence: for every non-empty path of
`n` hops, the instruction emitted for the recipient-side hop `n-1` has
`htlc_amount_msat = per_path_amount` and
`htlc_expiry = current_height + min_final_cltv_delta`, and for every `i`
in `1..n-1` the instruction for hop `i-1` has `htlc_amount_msat =
amount_i + hop[i].base_fee_msat + floor(amount_i *
hop[i].proportional_fee_ppm / 1_000_000)` and `htlc_expiry = expiry_i +
hop[i].cltv_delta`, where `amount_i`, `expiry_i` are hop `i`'s emitted
values.  The inequality hypotheses state that the quantities stay inside
the `u32`/`u64` ranges: the source computes with wrapping machine
arithmetic (see C6), and within range the wrapping arithmetic is exact. -/
theorem c1_backward_propagation (s : List Nat)
    (total per_path num_paths current_height min_final path_id : Nat)
    (path : List InputRow) (hne : path ≠ [])
    (hexp : current_height + min_final < U32) :
    (process_path s total per_path ((current_height + min_final) % U32)
        num_paths path_id path).length = path.length ∧
    ((process_path s total per_path ((current_height + min_final) % U32)
        num_paths path_id path).getD (path.length - 1) dOut).htlc_amount_msat
      = per_path ∧
    ((process_path s total per_path ((current_height + min_final) % U32)
        num_paths path_id path).getD (path.length - 1) dOut).htlc_expiry
      = current_height + min_final ∧
    ∀ i, 0 < i → i < path.length →
      ((((process_path s total per_path ((current_height + min_final) % U32)
            num_paths path_id path).getD i dOut).htlc_amount_msat *
            (path.getD i dIn).proportional_fee_ppm < U64 →
        ((process_path s total per_path ((current_height + min_final) % U32)
            num_paths path_id path).getD i dOut).htlc_amount_msat +
            (path.getD i dIn).base_fee_msat +
            ((process_path s total per_path ((current_height + min_final) % U32)
                num_paths path_id path).getD i dOut).htlc_amount_msat *
              (path.getD i dIn).proportional_fee_ppm / 1000000 < U64 →
        ((process_path s total per_path ((current_height + min_final) % U32)
            num_paths path_id path).getD (i - 1) dOut).htlc_amount_msat =
          ((process_path s total per_path ((current_height + min_final) % U32)
              num_paths path_id path).getD i dOut).htlc_amount_msat +
            (path.getD i dIn).base_fee_msat +
            ((process_path s total per_path ((current_height + min_final) % U32)
                num_paths path_id path).getD i dOut).htlc_amount_msat *
              (path.getD i dIn).proportional_fee_ppm / 1000000) ∧
       (((process_path s total per_path ((current_height + min_final) % U32)
            num_paths path_id path).getD i dOut).htlc_expiry +
            (path.getD i dIn).cltv_delta < U32 →
        ((process_path s total per_path ((current_height + min_final) % U32)
            num_paths path_id path).getD (i - 1) dOut).htlc_expiry =
          ((process_path s total per_path ((current_height + min_final) % U32)
              num_paths path_id path).getD i dOut).htlc_expiry +
            (path.getD i dIn).cltv_delta)) := by
  have hn : 0 < path.length := List.length_pos.mpr hne
  refine ⟨process_path_length _ _ _ _ _ _ _, ?_, ?_, ?_⟩
  · rw [process_path_getD _ _ _ _ _ _ path (path.length - 1) (by omega)]
    simp [Nat.sub_self, amtFold]
  · rw [process_path_getD _ _ _ _ _ _ path (path.length - 1) (by omega)]
    simp only [Nat.sub_self, List.take_zero, expFold]
    exact Nat.mod_eq_of_lt hexp
  · intro i h0 hi
    have hstep := process_path_step s total per_path
      ((current_height + min_final) % U32) num_paths path_id path i h0 hi
    constructor
    · intro h1 h2
      rw [hstep.1, feeStep_eq_of_lt _ _ h1 h2]
    · intro h3
      rw [hstep.2, expStep_eq_of_lt _ _ h3]

/-- Witness for C1 at the spec's §8-shaped example. -/
theorem c1_backward_propagation_witness :
    (800000 + 40 < U32) ∧
    (process_path [] 200000000 200000000 ((800000 + 40) % U32) 1 0
        examplePath).length = 3 ∧
    ((process_path [] 200000000 200000000 ((800000 + 40) % U32) 1 0
        examplePath).getD 2 dOut).htlc_amount_msat = 200000000 ∧
    ((process_path [] 200000000 200000000 ((800000 + 40) % U32) 1 0
        examplePath).getD 2 dOut).htlc_expiry = 800000 + 40 ∧
    ((process_path [] 200000000 200000000 ((800000 + 40) % U32) 1 0
        examplePath).getD 0 dOut).htlc_amount_msat =
      ((process_path [] 200000000 200000000 ((800000 + 40) % U32) 1 0
          examplePath).getD 1 dOut).htlc_amount_msat +
        (examplePath.getD 1 dIn).base_fee_msat +
        ((process_path [] 200000000 200000000 ((800000 + 40) % U32) 1 0
            examplePath).getD 1 dOut).htlc_amount_msat *
          (examplePath.getD 1 dIn).proportional_fee_ppm / 1000000 ∧
    ((process_path [] 200000000 200000000 ((800000 + 40) % U32) 1 0
        examplePath).getD 0 dOut).htlc_expiry =
      ((process_path [] 200000000 200000000 ((800000 + 40) % U32) 1 0
          examplePath).getD 1 dOut).htlc_expiry +
        (examplePath.getD 1 dIn).cltv_delta := by
  have h := c1_backward_propagation [] 200000000 200000000 1 800000 40 0
    examplePath (by decide) (by decide)
  have hs := h.2.2.2 1 (by decide) (by decide)
  exact ⟨by decide, h.1.trans (by decide), h.2.1, h.2.2.1,
    hs.1 (by decide) (by decide), hs.2 (by decide)⟩

/-- C9.  Fee monotonicity: whenever the `u64` accumulator step from
emitted element `i` to its sender-side neighbour `i-1` stays in range
(fee parameters are `u64`, hence always non-negative), the neighbour's
`htlc_amount_msat` is at least element `i`'s: amounts are non-decreasing
moving from the recipient toward the sender. -/
theorem c9_fee_monotonicity (s : List Nat) (t a e np pid : Nat)
    (path : List InputRow) (i : Nat) (h0 : 0 < i) (hi : i < path.length)
    (h1 : ((process_path s t a e np pid path).getD i dOut).htlc_amount_msat *
        (path.getD i dIn).proportional_fee_ppm < U64)
    (h2 : ((process_path s t a e np pid path).getD i dOut).htlc_amount_msat +
        (path.getD i dIn).base_fee_msat +
        ((process_path s t a e np pid path).getD i dOut).htlc_amount_msat *
          (path.getD i dIn).proportional_fee_ppm / 1000000 < U64) :
    ((process_path s t a e np pid path).getD i dOut).htlc_amount_msat ≤
      ((process_path s t a e np pid path).getD (i - 1) dOut).htlc_amount_msat := by
  rw [(process_path_step s t a e np pid path i h0 hi).1,
    feeStep_eq_of_lt _ _ h1 h2]
  omega

/-- Witness for C9 at the example path. -/
theorem c9_fee_monotonicity_witness :
    ((process_path [] 200000000 200000000 800040 1 0 examplePath).getD 1
          dOut).htlc_amount_msat *
        (examplePath.getD 1 dIn).proportional_fee_ppm < U64 ∧
    ((process_path [] 200000000 200000000 800040 1 0 examplePath).getD 1
        dOut).htlc_amount_msat ≤
      ((process_path [] 200000000 200000000 800040 1 0 examplePath).getD 0
          dOut).htlc_amount_msat :=
  ⟨by decide, c9_fee_monotonicity [] 200000000 200000000 800040 1 0
    examplePath 1 (by decide) (by decide) (by decide) (by decide)⟩

/-! ## Analysis of `count_paths` and the grouping step -/

theorem foldl_max_eq (rows : List InputRow) (i : Nat) :
    rows.foldl (fun max_path_id row =>
        if row.path_id > max_path_id then row.path_id else max_path_id) i =
      max i ((rows.map InputRow.path_id).foldr max 0) := by
  induction rows generalizing i with
  | nil => simp
  | cons row rest ih =>
    simp only [List.foldl_cons, List.map_cons, List.foldr_cons]
    rw [ih]
    split <;> omega

theorem count_paths_eq (rows : List InputRow) :
    count_paths rows = (((rows.map InputRow.path_id).foldr max 0) + 1) % U32 := by
  unfold count_paths
  rw [foldl_max_eq]
  simp

theorem le_foldr_max (l : List Nat) (x : Nat) (hx : x ∈ l) :
    x ≤ l.foldr max 0 := by
  induction l with
  | nil => simp at hx
  | cons y ys ih =>
    simp only [List.foldr_cons]
    rcases List.mem_cons.mp hx with rfl | h
    · omega
    · have := ih h
      omega

theorem foldr_max_lt (l : List Nat) (B : Nat) (hB : 0 < B)
    (h : ∀ x ∈ l, x < B) : l.foldr max 0 < B := by
  induction l with
  | nil => simpa using hB
  | cons y ys ih =>
    simp only [List.foldr_cons]
    have h1 := h y (by simp)
    have h2 := ih (fun x hx => h x (by simp [hx]))
    omega

/-- Provided no `path_id` is `u32::MAX`, `count_paths` dominates every
`path_id` strictly. -/
theorem count_paths_gt (rows : List InputRow)
    (hid : ∀ r ∈ rows, r.path_id + 1 < U32) :
    ∀ r ∈ rows, r.path_id < count_paths rows := by
  have hM : (rows.map InputRow.path_id).foldr max 0 + 1 < U32 := by
    have := foldr_max_lt (rows.map InputRow.path_id) (U32 - 1) (by decide)
      (by
        intro x hx
        obtain ⟨r, hr, rfl⟩ := List.mem_map.mp hx
        have := hid r hr
        omega)
    omega
  intro r hr
  rw [count_paths_eq, Nat.mod_eq_of_lt hM]
  have := le_foldr_max (rows.map InputRow.path_id) r.path_id
    (List.mem_map.mpr ⟨r, hr, rfl⟩)
  omega

/-- If any row's `path_id` is at least the bucket count, the grouping
loop reaches the out-of-bounds index (modelled as `none`). -/
theorem group_rows_none (rows : List InputRow) :
    ∀ acc : List (List InputRow), (∃ r ∈ rows, acc.length ≤ r.path_id) →
      group_rows rows acc = none := by
  induction rows with
  | nil =>
    intro acc h
    obtain ⟨r, hr, _⟩ := h
    simp at hr
  | cons row rest ih =>
    intro acc h
    obtain ⟨r, hr, hge⟩ := h
    by_cases hrow : row.path_id < acc.length
    · have hmem : r ∈ rest := by
        rcases List.mem_cons.mp hr with rfl | h2
        · exact absurd hge (by omega)
        · exact h2
      simp only [group_rows, if_pos hrow]
      exact ih _ ⟨r, hmem, by rwa [List.length_set]⟩
    · simp only [group_rows, if_neg hrow]

/-- If every row's `path_id` is in bounds, grouping succeeds, keeps the
bucket count, and bucket `pid` collects exactly the rows with that
`path_id`, in order, behind whatever the accumulator already held. -/
theorem group_rows_some (rows : List InputRow) :
    ∀ acc : List (List InputRow), (∀ r ∈ rows, r.path_id < acc.length) →
      ∃ ps, group_rows rows acc = some ps ∧ ps.length = acc.length ∧
        ∀ pid, ps.getD pid [] =
          acc.getD pid [] ++ rows.filter (fun r => r.path_id == pid) := by
  induction rows with
  | nil =>
    intro acc _
    exact ⟨acc, rfl, rfl, fun pid => by simp⟩
  | cons row rest ih =>
    intro acc h
    have hrow : row.path_id < acc.length := h row (by simp)
    obtain ⟨ps, hps, hlen, hbuckets⟩ := ih
      (acc.set row.path_id (acc.getD row.path_id [] ++ [row]))
      (fun r hr => by rw [List.length_set]; exact h r (by simp [hr]))
    refine ⟨ps, ?_, ?_, ?_⟩
    · simp only [group_rows, if_pos hrow]
      exact hps
    · rw [hlen, List.length_set]
    · intro pid
      rw [hbuckets pid]
      by_cases hpid : row.path_id = pid
      · subst hpid
        rw [List.getD_eq_getElem?_getD, List.getElem?_set, if_pos rfl,
          if_pos hrow]
        simp [List.filter_cons, ← List.getD_eq_getElem?_getD]
      · rw [List.getD_eq_getElem?_getD, List.getElem?_set, if_neg hpid]
        simp [List.filter_cons, hpid, ← List.getD_eq_getElem?_getD]

/-! ## C2: path count on empty input -/

/-- C2 is false on the code at two concrete inputs: `count_paths` of the
empty collection is `1` (the fold's maximum starts at `0` and the
function unconditionally adds one), not `0`; and for a single hop with
`path_id = u32::MAX` the `u32` increment wraps, so the result is `0`,
not `max(path_id) + 1`. -/
theorem c2_count_paths_counterexample :
    count_paths ([] : List InputRow) ≠ 0 ∧
    count_paths [⟨4294967295, "a", 0, 0, 0⟩] ≠ 4294967295 + 1 := by
  decide

/-- C2 amended: `count_paths` always returns
`(max(path_id over all hops, 0 on empty) + 1) mod 2^32`; in particular it
returns `max + 1` exactly whenever that does not overflow `u32`, and it
returns `1`, not `0`, on the empty collection. -/
theorem c2_count_paths_amended (rows : List InputRow) :
    count_paths rows = (((rows.map InputRow.path_id).foldr max 0) + 1) % U32 ∧
    ((rows.map InputRow.path_id).foldr max 0 + 1 < U32 →
      count_paths rows = (rows.map InputRow.path_id).foldr max 0 + 1) ∧
    (rows = [] → count_paths rows = 1) := by
  refine ⟨count_paths_eq rows, fun h => ?_, fun h => ?_⟩
  · rw [count_paths_eq, Nat.mod_eq_of_lt h]
  · subst h
    rfl

/-- Witness for C2 at a non-empty and at the empty collection. -/
theorem c2_count_paths_amended_witness :
    count_paths [⟨2, "a", 0, 0, 0⟩] = 3 ∧
    count_paths ([] : List InputRow) = 1 :=
  ⟨((c2_count_paths_amended [⟨2, "a", 0, 0, 0⟩]).2.1 (by decide)).trans
      (by decide),
   (c2_count_paths_amended []).2.2 rfl⟩

/-! ## C8: out-of-range path id -/

/-- C8 as stated is false: at this input (a hop with `path_id = 3`,
supplied path count `1`) the code hits the out-of-bounds vector index and
panics — modelled as `none`.  The Rust function's return type
(`Vec<OutputRow>`) has no error case at all, so no `InvalidPathId` error
value can be surfaced. -/
theorem c8_invalid_path_id_counterexample :
    calculate_route [⟨3, "x", 0, 0, 0⟩] 100 0 800000 [] 1 = none := by
  decide

/-- C8 amended: whenever some hop's `path_id` is at least the supplied
path count, `calculate_route` aborts with the index-out-of-bounds panic
(modelled as `none`) — the bad id is reported by crashing, not via an
`InvalidPathId` error value, and never silently dropped. -/
theorem c8_invalid_path_id_amended (rows : List InputRow)
    (amount mf ch : Nat) (s : List Nat) (np : Nat)
    (h : ∃ r ∈ rows, np ≤ r.path_id) :
    calculate_route rows amount mf ch s np = none := by
  have hg : group_rows rows (List.replicate np []) = none := by
    apply group_rows_none
    obtain ⟨r, hr, hge⟩ := h
    exact ⟨r, hr, by rwa [List.length_replicate]⟩
  simp only [calculate_route, hg]

/-- Witness for C8. -/
theorem c8_invalid_path_id_witness :
    calculate_route [⟨5, "y", 1, 2, 3⟩] 250 10 100 [] 2 = none :=
  c8_invalid_path_id_amended _ 250 10 100 [] 2
    ⟨⟨5, "y", 1, 2, 3⟩, by decide, by decide⟩

/-! ## C10: bucket indexing safety -/

/-- C10 is false at `path_id = u32::MAX`: `count_paths` wraps to `0`,
which is not greater than the hop's `path_id`, and `calculate_route`
called with that count hits the out-of-bounds branch (panic, modelled as
`none`). -/
theorem c10_bucket_indexing_counterexample :
    ¬ ((⟨4294967295, "x", 0, 0, 0⟩ : InputRow).path_id <
        count_paths [⟨4294967295, "x", 0, 0, 0⟩]) ∧
    calculate_route [⟨4294967295, "x", 0, 0, 0⟩] 1 0 0 []
      (count_paths [⟨4294967295, "x", 0, 0, 0⟩]) = none := by
  decide

/-- C10 amended: provided every `path_id` is below `u32::MAX` (so the
`+ 1` in `count_paths` does not wrap), `count_paths` is strictly greater
than every hop's `path_id`, and `calculate_route` invoked with
`num_paths = count_paths rows` never reaches the out-of-bounds branch:
it returns a result. -/
theorem c10_bucket_indexing_amended (rows : List InputRow)
    (amount mf ch : Nat) (s : List Nat)
    (hid : ∀ r ∈ rows, r.path_id + 1 < U32) :
    (∀ r ∈ rows, r.path_id < count_paths rows) ∧
    (calculate_route rows amount mf ch s (count_paths rows)).isSome = true := by
  refine ⟨count_paths_gt rows hid, ?_⟩
  obtain ⟨ps, hps, _, _⟩ := group_rows_some rows
    (List.replicate (count_paths rows) [])
    (fun r hr => by rw [List.length_replicate]; exact count_paths_gt rows hid r hr)
  simp only [calculate_route, hps, Option.isSome_some]

/-- Witness for C10. -/
theorem c10_bucket_indexing_witness :
    (∀ r ∈ [(⟨0, "a", 1, 2, 3⟩ : InputRow), ⟨1, "b", 0, 0, 0⟩],
      r.path_id < count_paths [(⟨0, "a", 1, 2, 3⟩ : InputRow), ⟨1, "b", 0, 0, 0⟩]) ∧
    (calculate_route [(⟨0, "a", 1, 2, 3⟩ : InputRow), ⟨1, "b", 0, 0, 0⟩]
      500 40 800000 []
      (count_paths [(⟨0, "a", 1, 2, 3⟩ : InputRow), ⟨1, "b", 0, 0, 0⟩])).isSome = true :=
  c10_bucket_indexing_amended _ 500 40 800000 [] (by decide)

/-! ## Analysis of the hexadecimal auxiliary-record encoding -/

theorem data_join (l : List String) :
    (String.join l).data = (l.map String.data).flatten := by
  suffices h : ∀ (l : List String) (acc : String),
      (l.foldl (fun r s => r ++ s) acc).data =
        acc.data ++ (l.map String.data).flatten by
    simpa [String.join] using h l ""
  intro l
  induction l with
  | nil => intro acc; simp
  | cons s rest ih =>
    intro acc
    simp only [List.foldl_cons, List.map_cons, List.flatten_cons]
    rw [ih, String.data_append, List.append_assoc]

theorem data_build_tlv (s : List Nat) (t : Nat) :
    (build_tlv s t).data =
      ((u64_to_be_bytes 8 ++ u64_to_be_bytes 40 ++ s ++ u64_to_be_bytes t).map
        byteToHexChars).flatten := by
  simp only [build_tlv]
  rw [data_join, List.map_map]
  rfl

theorem length_flatten_hex (bytes : List Nat) :
    ((bytes.map byteToHexChars).flatten).length = 2 * bytes.length := by
  induction bytes with
  | nil => rfl
  | cons b rest ih =>
    simp only [List.map_cons, List.flatten_cons, List.length_append, ih,
      byteToHexChars, List.length_cons, List.length_nil]
    omega

theorem build_tlv_length (s : List Nat) (t : Nat) :
    (build_tlv s t).length = 2 * (24 + s.length) := by
  show (build_tlv s t).data.length = 2 * (24 + s.length)
  rw [data_build_tlv, length_flatten_hex]
  simp [u64_to_be_bytes]
  omega

theorem build_tlv_ne_NULL (s : List Nat) (t : Nat) : build_tlv s t ≠ "NULL" := by
  intro h
  have hlen := congrArg String.length h
  rw [build_tlv_length] at hlen
  have : ("NULL" : String).length = 4 := rfl
  omega

theorem hexCharVal_hexDigit : ∀ m, m < 16 → hexCharVal (hexDigit m) = some m := by
  decide

theorem isLowerHexChar_hexDigit : ∀ m, m < 16 → isLowerHexChar (hexDigit m) := by
  decide

theorem u64_to_be_bytes_lt (n : Nat) : ∀ b ∈ u64_to_be_bytes n, b < 256 := by
  intro b hb
  simp only [u64_to_be_bytes, List.mem_cons, List.not_mem_nil, or_false] at hb
  rcases hb with h | h | h | h | h | h | h | h <;> omega

theorem decode_flatten (bytes : List Nat) (hb : ∀ b ∈ bytes, b < 256) :
    decodeHexChars ((bytes.map byteToHexChars).flatten) = some bytes := by
  induction bytes with
  | nil => rfl
  | cons b rest ih =>
    have hb0 : b < 256 := hb b (by simp)
    have hrest := ih (fun x hx => hb x (by simp [hx]))
    simp only [List.map_cons, List.flatten_cons, byteToHexChars,
      List.cons_append, List.nil_append]
    simp only [decodeHexChars, hexCharVal_hexDigit _ (show b / 16 % 16 < 16 by omega),
      hexCharVal_hexDigit _ (show b % 16 < 16 by omega), hrest]
    have : 16 * (b / 16 % 16) + b % 16 = b := by omega
    rw [this]

theorem decodeHex_build_tlv (s : List Nat) (t : Nat) (hb : ∀ b ∈ s, b < 256) :
    decodeHex (build_tlv s t) =
      some (u64_to_be_bytes 8 ++ u64_to_be_bytes 40 ++ s ++ u64_to_be_bytes t) := by
  rw [decodeHex, data_build_tlv]
  apply decode_flatten
  intro b hbmem
  simp only [List.mem_append] at hbmem
  rcases hbmem with ((h | h) | h) | h
  · exact u64_to_be_bytes_lt 8 b h
  · exact u64_to_be_bytes_lt 40 b h
  · exact hb b h
  · exact u64_to_be_bytes_lt t b h

theorem beVal_u64_to_be_bytes (n : Nat) (h : n < U64) :
    beVal (u64_to_be_bytes n) = n := by
  have h' : n < 18446744073709551616 := h
  simp only [beVal, u64_to_be_bytes, List.foldl_cons, List.foldl_nil]
  omega

/-! ## The output sort is a permutation -/

theorem insertRow_perm (x : OutputRow) (l : List OutputRow) :
    (insertRow x l).Perm (x :: l) := by
  induction l with
  | nil => exact List.Perm.refl _
  | cons y ys ih =>
    simp only [insertRow]
    split
    · exact List.Perm.refl _
    · exact (List.Perm.cons y ih).trans (List.Perm.swap x y ys)

theorem sortRows_perm (l : List OutputRow) : (sortRows l).Perm l := by
  induction l with
  | nil => exact List.Perm.refl _
  | cons x xs ih =>
    exact (insertRow_perm x (sortRows xs)).trans (List.Perm.cons x ih)

theorem mem_sortRows (x : OutputRow) (l : List OutputRow) :
    x ∈ sortRows l ↔ x ∈ l :=
  (sortRows_perm l).mem_iff

/-! ## C3: per-path amount -/

/-- C3 is false on the code at this input: hops on paths `0` and `2`
only, so exactly two paths are non-empty, yet the code divides the
`300` msat total by `count_paths = max(path_id) + 1 = 3` (counting the
empty bucket `1`), producing `100`, not `300 / 2 = 150`. -/
theorem c3_per_path_amount_counterexample :
    (((calculate_route [⟨0, "a", 0, 0, 0⟩, ⟨2, "b", 0, 0, 0⟩] 300 0 0 []
        (count_paths [⟨0, "a", 0, 0, 0⟩, ⟨2, "b", 0, 0, 0⟩])).getD []).getD 0
      dOut).htlc_amount_msat = 100 ∧
    (100 : Nat) ≠ 300 / 2 := by
  decide

/-- C3 amended: the divisor is `num_paths = count_paths rows =
max(path_id) + 1`, which counts empty buckets, not the number of
non-empty paths: when `count_paths rows > 1` every occupied path's
recipient-side instruction carries `amount_msat / count_paths rows`
(floor division), and the whole `amount_msat` only when
`count_paths rows = 1` (that is, when every `path_id` is `0`). -/
theorem c3_per_path_amount_amended (rows : List InputRow)
    (amount mf ch : Nat) (s : List Nat)
    (hid : ∀ r ∈ rows, r.path_id + 1 < U32) :
    ∃ out, calculate_route rows amount mf ch s (count_paths rows) = some out ∧
      ∀ pid, (∃ r ∈ rows, r.path_id = pid) →
        ∃ o ∈ out, o.path_id = pid ∧
          o.htlc_amount_msat =
            (if count_paths rows > 1 then amount / count_paths rows
             else amount) := by
  obtain ⟨ps, hps, hlen, hbuckets⟩ := group_rows_some rows
    (List.replicate (count_paths rows) [])
    (fun r hr => by
      rw [List.length_replicate]
      exact count_paths_gt rows hid r hr)
  have hlen' : ps.length = count_paths rows := by
    rw [hlen, List.length_replicate]
  have hroute : calculate_route rows amount mf ch s (count_paths rows) =
      some (sortRows ((ps.enum.map (fun p =>
        if p.2.isEmpty then []
        else process_path s amount
          (if count_paths rows > 1 then amount / count_paths rows else amount)
          ((ch + mf) % U32) (count_paths rows) p.1 p.2)).flatten)) := by
    simp only [calculate_route, hps]
  refine ⟨_, hroute, ?_⟩
  intro pid hpid
  obtain ⟨r, hr, hrpid⟩ := hpid
  have hlt : pid < count_paths rows := hrpid ▸ count_paths_gt rows hid r hr
  have hbucket : ps.getD pid [] = rows.filter (fun r => r.path_id == pid) := by
    rw [hbuckets pid]
    have hrep : (List.replicate (count_paths rows)
        ([] : List InputRow)).getD pid [] = [] := by
      rw [List.getD_eq_getElem?_getD, List.getElem?_replicate]
      split <;> rfl
    rw [hrep, List.nil_append]
  have hrmem : r ∈ ps.getD pid [] := by
    rw [hbucket]
    exact List.mem_filter.mpr ⟨hr, by simp [hrpid]⟩
  have hbne : ps.getD pid [] ≠ [] := by
    intro hnil
    rw [hnil] at hrmem
    exact List.not_mem_nil r hrmem
  have hblen : 0 < (ps.getD pid []).length := List.length_pos.mpr hbne
  have hempty : (ps.getD pid []).isEmpty = false := by
    rcases hcase : ps.getD pid [] with _ | ⟨a, l⟩
    · exact absurd hcase hbne
    · rfl
  have hppl : (process_path s amount
      (if count_paths rows > 1 then amount / count_paths rows else amount)
      ((ch + mf) % U32) (count_paths rows) pid (ps.getD pid [])).length =
        (ps.getD pid []).length :=
    process_path_length _ _ _ _ _ _ _
  have hgetd := process_path_getD s amount
    (if count_paths rows > 1 then amount / count_paths rows else amount)
    ((ch + mf) % U32) (count_paths rows) pid (ps.getD pid [])
    ((ps.getD pid []).length - 1) (by omega)
  refine ⟨(process_path s amount
      (if count_paths rows > 1 then amount / count_paths rows else amount)
      ((ch + mf) % U32) (count_paths rows) pid (ps.getD pid [])).getD
        ((ps.getD pid []).length - 1) dOut, ?_, ?_, ?_⟩
  · rw [mem_sortRows]
    apply List.mem_flatten.mpr
    refine ⟨process_path s amount
      (if count_paths rows > 1 then amount / count_paths rows else amount)
      ((ch + mf) % U32) (count_paths rows) pid (ps.getD pid []), ?_, ?_⟩
    · apply List.mem_map.mpr
      refine ⟨(pid, ps.getD pid []), ?_, ?_⟩
      · have hpl : pid < ps.enum.length := by
          rw [List.enum_length]
          omega
        have hev : ps.enum[pid]? = some (pid, ps.getD pid []) := by
          rw [List.getElem?_eq_getElem hpl, List.getElem_enum,
            List.getD_eq_getElem ps [] (by omega)]
        exact List.getElem?_mem hev
      · show (if (ps.getD pid []).isEmpty = true then []
            else process_path s amount
              (if count_paths rows > 1 then amount / count_paths rows
               else amount)
              ((ch + mf) % U32) (count_paths rows) pid (ps.getD pid [])) =
          process_path s amount
            (if count_paths rows > 1 then amount / count_paths rows else amount)
            ((ch + mf) % U32) (count_paths rows) pid (ps.getD pid [])
        rw [hempty]
        rfl
    · rw [List.getD_eq_getElem _ dOut (by omega)]
      exact List.getElem_mem _
  · rw [hgetd]
  · rw [hgetd]
    simp [Nat.sub_self, amtFold]

/-- Witness for C3: path ids `0` and `2`, total `300`; the occupied path
`2`'s recipient instruction carries `300 / 3 = 100`. -/
theorem c3_per_path_amount_witness :
    ∃ out, calculate_route [⟨0, "a", 0, 0, 0⟩, ⟨2, "b", 0, 0, 0⟩] 300 0 0 []
        (count_paths [⟨0, "a", 0, 0, 0⟩, ⟨2, "b", 0, 0, 0⟩]) = some out ∧
      ∃ o ∈ out, o.path_id = 2 ∧ o.htlc_amount_msat = 100 := by
  obtain ⟨out, hout, h⟩ := c3_per_path_amount_amended
    [⟨0, "a", 0, 0, 0⟩, ⟨2, "b", 0, 0, 0⟩] 300 0 0 [] (by decide)
  obtain ⟨o, ho, hop, hoa⟩ := h 2 ⟨⟨2, "b", 0, 0, 0⟩, by decide, rfl⟩
  refine ⟨out, hout, o, ho, hop, ?_⟩
  rw [hoa]
  decide

/-! ## C6: overflow wraps instead of erroring -/

/-- C6: the code is wrong here.  At this input the recipient-side amount
is `u64::MAX`; propagating a 1 msat base fee overflows, and the code
(plain `+`/`*` on `u64`, release-profile semantics) silently wraps the
sender-side amount to `0` and returns a result; no `ArithmeticOverflow`
error exists anywhere in the source (the function's return type has no
error case), even though the spec requires one here. -/
theorem c6_overflow_wraps :
    calculate_route [⟨0, "a", 0, 0, 0⟩, ⟨0, "b", 0, 1, 0⟩]
        (U64 - 1) 0 0 [] 1 =
      some [⟨0, "a", 0, 0, "NULL"⟩, ⟨0, "b", U64 - 1, 0, "NULL"⟩] := by
  decide

/-! ## C7: secret length is never validated -/

/-- C7: the code is wrong here.  `build_tlv` concatenates whatever secret
it is given without checking its length: a 31-byte secret yields a
malformed 110-character record (not 112) attached to every final hop,
and `calculate_route` succeeds; no `SecretLengthMismatch` error exists
anywhere in the source. -/
theorem c7_no_secret_length_check :
    (build_tlv (List.replicate 31 7) 100).length = 110 ∧
    calculate_route [⟨0, "a", 0, 0, 0⟩, ⟨1, "b", 0, 0, 0⟩] 100 0 0
        (List.replicate 31 7) 2 =
      some [⟨0, "a", 50, 0, build_tlv (List.replicate 31 7) 100⟩,
        ⟨1, "b", 50, 0, build_tlv (List.replicate 31 7) 100⟩] := by
  decide

/-! ## C4: auxiliary-record placement -/

/-- C4 is false on the code at this input: a single hop with
`path_id = 1` is the only non-empty path, so the claim's `P` (number of
non-empty paths) is `1` and every instruction should carry `"NULL"`; but
the code tests `num_paths = count_paths = max(path_id) + 1 = 2 > 1` and
attaches an auxiliary record. -/
theorem c4_tlv_placement_counterexample :
    (((calculate_route [⟨1, "a", 0, 0, 0⟩] 100 0 0 (List.replicate 32 0)
        (count_paths [⟨1, "a", 0, 0, 0⟩])).getD []).getD 0 dOut).tlv ≠
      "NULL" := by
  decide

/-- C4 amended: with the multipath test taken on `num_paths` (the
supplied bucket count `count_paths = max(path_id) + 1`, which also counts
empty buckets) instead of the number of non-empty paths: within each
processed path, the instruction at index `i` carries the auxiliary record
exactly when `i` is the last index and `num_paths > 1`, and `"NULL"`
otherwise; the record is never the literal `"NULL"`, so exactly one
instruction per non-empty path is marked when `num_paths > 1` and none
when `num_paths = 1`. -/
theorem c4_tlv_placement_amended (s : List Nat) (t a e np pid : Nat)
    (path : List InputRow) :
    (∀ i, i < path.length →
      ((process_path s t a e np pid path).getD i dOut).tlv =
        if i = path.length - 1 ∧ np > 1 then build_tlv s t else "NULL") ∧
    build_tlv s t ≠ "NULL" := by
  refine ⟨fun i hi => ?_, build_tlv_ne_NULL s t⟩
  rw [process_path_getD s t a e np pid path i hi]

/-- Witness for C4: a two-hop path with `num_paths = 2` has the record on
its last instruction only; with `num_paths = 1` both carry `"NULL"`. -/
theorem c4_tlv_placement_witness :
    ((process_path (List.replicate 32 0) 99 50 800040 2 0
        [⟨0, "x", 10, 5, 0⟩, ⟨0, "y", 20, 7, 0⟩]).getD 1 dOut).tlv =
      build_tlv (List.replicate 32 0) 99 ∧
    ((process_path (List.replicate 32 0) 99 50 800040 2 0
        [⟨0, "x", 10, 5, 0⟩, ⟨0, "y", 20, 7, 0⟩]).getD 0 dOut).tlv = "NULL" ∧
    ((process_path (List.replicate 32 0) 99 50 800040 1 0
        [⟨0, "x", 10, 5, 0⟩, ⟨0, "y", 20, 7, 0⟩]).getD 1 dOut).tlv = "NULL" ∧
    build_tlv (List.replicate 32 0) 99 ≠ "NULL" := by
  have h2 := c4_tlv_placement_amended (List.replicate 32 0) 99 50 800040 2 0
    [⟨0, "x", 10, 5, 0⟩, ⟨0, "y", 20, 7, 0⟩]
  have h1 := c4_tlv_placement_amended (List.replicate 32 0) 99 50 800040 1 0
    [⟨0, "x", 10, 5, 0⟩, ⟨0, "y", 20, 7, 0⟩]
  refine ⟨?_, ?_, ?_, h2.2⟩
  · simpa using h2.1 1 (by decide)
  · simpa using h2.1 0 (by decide)
  · simpa using h1.1 1 (by decide)

/-! ## C5: auxiliary-record encoding -/

/-- C5.  For every 32-byte secret and in-range total, `build_tlv` returns
a 112-character string of lowercase hexadecimal digits whose decoded 56
bytes are, in order: the constant `8` as an 8-byte big-endian integer,
the constant `40` as an 8-byte big-endian integer, the 32 secret bytes
verbatim, and the full total amount as an 8-byte big-endian integer.
The encoder is a total function: it cannot fail. -/
theorem c5_tlv_encoding (s : List Nat) (t : Nat)
    (hs : s.length = 32) (hb : ∀ b ∈ s, b < 256) (ht : t < U64) :
    (build_tlv s t).length = 112 ∧
    (∀ c ∈ (build_tlv s t).data, isLowerHexChar c) ∧
    ∃ L, decodeHex (build_tlv s t) = some L ∧ L.length = 56 ∧
      beVal (L.take 8) = 8 ∧ beVal ((L.drop 8).take 8) = 40 ∧
      (L.drop 16).take 32 = s ∧ beVal (L.drop 48) = t := by
  refine ⟨?_, ?_, ?_⟩
  · rw [build_tlv_length, hs]
  · intro c hc
    rw [data_build_tlv] at hc
    obtain ⟨chars, hchars, hcmem⟩ := List.mem_flatten.mp hc
    obtain ⟨b, _, rfl⟩ := List.mem_map.mp hchars
    simp only [byteToHexChars, List.mem_cons, List.not_mem_nil, or_false] at hcmem
    rcases hcmem with rfl | rfl
    · exact isLowerHexChar_hexDigit _ (by omega)
    · exact isLowerHexChar_hexDigit _ (by omega)
  · refine ⟨_, decodeHex_build_tlv s t hb, ?_, ?_, ?_, ?_, ?_⟩
    · simp [u64_to_be_bytes, hs]
    · rw [List.append_assoc, List.append_assoc,
        @List.take_left' Nat (u64_to_be_bytes 8)
          (u64_to_be_bytes 40 ++ (s ++ u64_to_be_bytes t)) 8 rfl]
      decide
    · rw [List.append_assoc, List.append_assoc,
        @List.drop_left' Nat (u64_to_be_bytes 8)
          (u64_to_be_bytes 40 ++ (s ++ u64_to_be_bytes t)) 8 rfl,
        @List.take_left' Nat (u64_to_be_bytes 40) (s ++ u64_to_be_bytes t) 8 rfl]
      decide
    · rw [List.append_assoc,
        @List.drop_left' Nat (u64_to_be_bytes 8 ++ u64_to_be_bytes 40)
          (s ++ u64_to_be_bytes t) 16 rfl]
      exact List.take_left' hs
    · rw [@List.drop_left' Nat ((u64_to_be_bytes 8 ++ u64_to_be_bytes 40) ++ s)
          (u64_to_be_bytes t) 48 (by simp [u64_to_be_bytes, hs])]
      exact beVal_u64_to_be_bytes t ht

/-- Witness for C5 at the concrete 32-byte secret `0,1,...,31` and total
`200_000_000`. -/
theorem c5_tlv_encoding_witness :
    (List.range 32).length = 32 ∧
    (build_tlv (List.range 32) 200000000).length = 112 ∧
    ∃ L, decodeHex (build_tlv (List.range 32) 200000000) = some L ∧
      L.length = 56 ∧ beVal (L.take 8) = 8 ∧ beVal ((L.drop 8).take 8) = 40 ∧
      (L.drop 16).take 32 = List.range 32 ∧ beVal (L.drop 48) = 200000000 := by
  have h := c5_tlv_encoding (List.range 32) 200000000 (by decide) (by decide)
    (by decide)
  exact ⟨by decide, h.1, h.2.2⟩

end RouteBuilder
